import Mathlib

set_option linter.dupNamespace false
set_option linter.unusedVariables false

/-!
Verification of the `cacher` in-process key-value store with TTL expiry.

The Go sources are shallowly embedded: machine integers (`int64`,
`time.Duration`) become `Int`, the Go map becomes an association list with
unique-key update/erase operations, pointer mutation of an entry's eviction
state becomes explicit state passing, functions that read `time.Now()` take
the current unix time `now : Int` as a parameter, and `panic` becomes an
`Option` result (`none` = panic).  The embedded variant is the current one:
the eviction-policy based `Cacher` (default policy `defaultEviction`), the
interface-based `value`, the mutex/once central `cleaner`, and `PolyKeyer`.
-/

namespace Cacher

/-! ### Eviction policy (`defaultEviction`, `isExpired`) -/

/-- The per-entry state of the default eviction policy:
`type defaultEviction struct { expiry int64; revaluate bool; ttl int64 }`. -/
structure DefaultEviction where
  expiry    : Int
  revaluate : Bool
  ttl       : Int
deriving DecidableEq, Repr

/-- `func (d *defaultEviction) isExpired(dry bool) bool`.  Returns the Go
result together with the (possibly mutated) state; `now` is `time.Now().Unix()`. -/
def isExpired (d : DefaultEviction) (dry : Bool) (now : Int) : Bool × DefaultEviction :=
  if d.expiry = 0 then (false, d)
  else if d.expiry ≤ now then (true, d)
  else if dry then (false, d)
  else if !d.revaluate then (false, d)
  else (false, { d with expiry := now + d.ttl })

/-! ### Wrapped entries (`value[T]`) -/

/-- `type value[T any] struct { val T; evictibleValue }`, instantiated at the
default policy (the only implementation in the repository). -/
structure Value (T : Type) where
  val : T
  ev  : DefaultEviction
deriving DecidableEq, Repr

/-- `func (v *value[T]) get() (value T, expired bool)`: a live (non-dry)
staleness check; the zero value of `T` is modelled by `default`. -/
def Value.get [Inhabited T] (v : Value T) (now : Int) : (T × Bool) × Value T :=
  let r := isExpired v.ev false now
  if r.1 then ((default, true), { v with ev := r.2 })
  else ((v.val, false), { v with ev := r.2 })

/-- `func (v *value[T]) getWithoutExpiry() (value T)`. -/
def Value.getWithoutExpiry (v : Value T) : T :=
  v.val

/-! ### Status flags and cleaning modes -/

/-- `type status int`: `noop`, `cleanerBusy`, `cacherReset`, `cacherDeleted`. -/
inductive Status where
  | noop
  | cleanerBusy
  | cacherReset
  | cacherDeleted
deriving DecidableEq, Repr

/-- `type CleaningMode int`: `CleaningNone`, `CleaningCentral`, `CleaningLocal`. -/
inductive CleaningMode where
  | CleaningNone
  | CleaningCentral
  | CleaningLocal
deriving DecidableEq, Repr

/-! ### The Go map, as an association list with unique keys -/

/-- Go map read `m[k]`. -/
def mapGet [DecidableEq K] : List (K × B) → K → Option B
  | [], _ => none
  | (k', v) :: rest, k => if k = k' then some v else mapGet rest k

/-- Go map assignment `m[k] = v` (replace in place, or insert). -/
def mapSet [DecidableEq K] : List (K × B) → K → B → List (K × B)
  | [], k, v => [(k, v)]
  | (k', v') :: rest, k, v =>
    if k = k' then (k, v) :: rest else (k', v') :: mapSet rest k v

/-- Go map removal `delete(m, k)` (keys are unique, so one removal suffices). -/
def mapErase [DecidableEq K] : List (K × B) → K → List (K × B)
  | [], _ => []
  | (k', v') :: rest, k =>
    if k = k' then rest else (k', v') :: mapErase rest k

/-! ### The cache instance (`Cacher[C, T]`) -/

/-- `type Cacher[C comparable, T any] struct { ... }`.  The eviction policy of
an instance is always a `_DefaultEviction{revaluate, ttl}`, so it is embedded
as the two fields `revaluate` and `ttl` (`ttl` in seconds); `cleanInterval`
is a `time.Duration` in nanoseconds. -/
structure Cacher (K V : Type) where
  status        : Status
  cacheMap      : List (K × Value V)
  cleanInterval : Int
  cleanerMode   : CleaningMode
  ttl           : Int
  revaluate     : Bool
deriving DecidableEq

/-- `func (c *Cacher[C, T]) packValue(val T, ttl *int64, permanent bool)`.
`getEvictableValue` yields `defaultEviction{revaluate, ttl}` with zero
`expiry`; the override pointer becomes `Option Int` (seconds). -/
def packValue (c : Cacher K V) (val : V) (ttl : Option Int) (permanent : Bool)
    (now : Int) : Value V :=
  let dv0 : DefaultEviction := { expiry := 0, revaluate := c.revaluate, ttl := c.ttl }
  let dv1 : DefaultEviction :=
    match ttl with
    | some t => if t ≠ 0 then { dv0 with expiry := now + t } else dv0
    | none   => if dv0.ttl ≠ 0 then { dv0 with expiry := now + dv0.ttl } else dv0
  let dv2 : DefaultEviction := if permanent then { dv1 with expiry := 0 } else dv1
  { val := val, ev := dv2 }

/-- `func (c *Cacher[C, T]) setRawValue(key C, val *value[T])`. -/
def setRawValue [DecidableEq K] (c : Cacher K V) (k : K) (v : Value V) : Cacher K V :=
  { c with cacheMap := mapSet c.cacheMap k v }

/-- `func (c *Cacher[C, T]) Set(key C, val T)`. -/
def Cacher.set [DecidableEq K] (c : Cacher K V) (k : K) (v : V) (now : Int) : Cacher K V :=
  setRawValue c k (packValue c v none false now)

/-- `func (c *Cacher[C, T]) SetWithTTL(key C, val T, ttl time.Duration)`;
`ttl` is already converted to seconds. -/
def Cacher.setWithTTL [DecidableEq K] (c : Cacher K V) (k : K) (v : V) (ttl : Int)
    (now : Int) : Cacher K V :=
  setRawValue c k (packValue c v (some ttl) false now)

/-- `func (c *Cacher[C, T]) SetPermanent(key C, val T)`. -/
def Cacher.setPermanent [DecidableEq K] (c : Cacher K V) (k : K) (v : V)
    (now : Int) : Cacher K V :=
  setRawValue c k (packValue c v none true now)

/-- `func (c *Cacher[C, T]) Get(key C) (value T, ok bool)`, returning the
result pair together with the updated instance (the entry is held by pointer,
so a revaluation inside `value.get` updates the stored entry in place, and
the expired branch deletes the key under the write lock). -/
def Cacher.get [DecidableEq K] [Inhabited V] (c : Cacher K V) (k : K) (now : Int) :
    (V × Bool) × Cacher K V :=
  match mapGet c.cacheMap k with
  | none => ((default, false), c)
  | some rv =>
    let r := rv.get now
    if r.1.2 = false then
      ((r.1.1, true), { c with cacheMap := mapSet c.cacheMap k r.2 })
    else
      ((default, false), { c with cacheMap := mapErase c.cacheMap k })

/-- `func (c *Cacher[C, T]) GetAll() []T`: collects `rv.getWithoutExpiry()`
for every entry of the map, in iteration order. -/
def Cacher.getAll (c : Cacher K V) : List V :=
  c.cacheMap.map (fun kv => kv.2.getWithoutExpiry)

/-- `func (c *Cacher[C, T]) NumKeys() int`. -/
def Cacher.numKeys (c : Cacher K V) : Int :=
  c.cacheMap.length

/-- `func (c *Cacher[C, T]) Delete(key C)`. -/
def Cacher.delete [DecidableEq K] (c : Cacher K V) (k : K) : Cacher K V :=
  { c with cacheMap := mapErase c.cacheMap k }

/-! ### The sweep (`cleanExpired`)

The Go loop re-reads `c.status` on every iteration, and that field may be
flipped concurrently by `Reset`; the sequence of observed reads is modelled
by an oracle `stats : Nat → Status` giving the value read at the i-th
iteration. -/

/-- The body of `cleanExpired`'s `for key, val := range c.cacheMap` loop:
returns the remaining map and the final status (set to `noop` on the abandon
branch, otherwise the last observed status). -/
def cleanLoop (now : Int) (stats : Nat → Status) :
    Nat → List (K × Value V) → List (K × Value V) × Status
  | i, [] => ([], stats i)
  | i, (k, v) :: rest =>
    if stats i = Status.cacherReset ∨ stats i = Status.cacherDeleted then
      ((k, v) :: rest, Status.noop)
    else
      let ex := isExpired v.ev true now
      if ex.1 then
        cleanLoop now stats (i + 1) rest
      else
        let r := cleanLoop now stats (i + 1) rest
        ((k, { v with ev := ex.2 }) :: r.1, r.2)

/-- `func (c *Cacher[C, T]) cleanExpired()`: one sweep pass. -/
def Cacher.cleanExpired (c : Cacher K V) (now : Int) (stats : Nat → Status) : Cacher K V :=
  let r := cleanLoop now stats 0 c.cacheMap
  { c with cacheMap := r.1, status := r.2 }

/-! ### Construction (`NewCacher`, current variant)

`NewCacherOpts` carries `TimeToLive`, `CleanInterval` (both `time.Duration`,
in nanoseconds), `CleanerMode` and `Revaluate`.  `DefaultEvictionPolicy`
never returns nil, so the `eviction != nil` guard is always taken. -/

/-- `type NewCacherOpts struct { TimeToLive; CleanInterval; CleanerMode; Revaluate }`. -/
structure NewCacherOpts where
  timeToLive    : Int
  cleanInterval : Int
  cleanerMode   : CleaningMode
  revaluate     : Bool
deriving DecidableEq, Repr

/-- `time.Duration` constants, in nanoseconds. -/
def nsPerSecond : Int := 1000000000

/-- `d.Seconds()` truncated to `int64` (exact whenever `d` is a whole number
of seconds, which is the only way the repository uses it). -/
def durationSeconds (d : Int) : Int := d.tdiv nsPerSecond

/-- `func NewCacher[KeyT comparable, ValueT any](opts *NewCacherOpts)`:
a nil `opts` pointer is replaced by the zero options; the clean interval
defaults to `1 * time.Hour` when left zero. -/
def newCacher (K V : Type) [DecidableEq K] (opts : Option NewCacherOpts) : Cacher K V :=
  let o := opts.getD { timeToLive := 0, cleanInterval := 0,
                       cleanerMode := CleaningMode.CleaningNone, revaluate := false }
  let c0 : Cacher K V :=
    { status := Status.noop, cacheMap := [], cleanInterval := o.cleanInterval,
      cleanerMode := o.cleanerMode, ttl := durationSeconds o.timeToLive,
      revaluate := o.revaluate }
  if c0.cleanInterval = 0 then { c0 with cleanInterval := 3600 * nsPerSecond } else c0

/-! ### The central cleaner

`type cleaner struct { mu; cachers []cleanable; cleanInterval; once }`.
A registrant (`cleanable`) is observed by the cleaner only through
`getCleanInterval()`, so it is modelled by that interval (a `time.Duration`);
the `once.Do(Run)` goroutine start has no effect on the registration state. -/

/-- The central cleaner's registration state. -/
structure CleanerState where
  cachers       : List Int
  cleanInterval : Int
deriving DecidableEq, Repr

/-- `func newCleaner() *cleaner`. -/
def newCleaner : CleanerState := { cachers := [], cleanInterval := 0 }

/-- Truncated remainder shrinks in absolute value (termination measure for
the Euclid loop below). -/
theorem natAbsTmodLt : ∀ (a b : Int), b ≠ 0 → (a.tmod b).natAbs < b.natAbs
  | Int.ofNat m, Int.ofNat n, h => by
    have hn : n ≠ 0 := by simpa [Int.ofNat_eq_zero] using h
    simpa [Int.tmod] using Nat.mod_lt m (Nat.pos_of_ne_zero hn)
  | Int.ofNat m, Int.negSucc n, _ => by
    simpa [Int.tmod] using Nat.mod_lt m (Nat.succ_pos n)
  | Int.negSucc m, Int.ofNat n, h => by
    have hn : n ≠ 0 := by simpa [Int.ofNat_eq_zero] using h
    simpa [Int.tmod, Int.natAbs_neg] using Nat.mod_lt (m + 1) (Nat.pos_of_ne_zero hn)
  | Int.negSucc m, Int.negSucc n, _ => by
    simpa [Int.tmod, Int.natAbs_neg] using Nat.mod_lt (m + 1) (Nat.succ_pos n)

/-- `func gcd(a, b time.Duration) time.Duration`: Euclid's loop
`for b != 0 { a, b = b, a%b }; return a` (Go's `%` truncates, i.e. `tmod`). -/
def gcdDur (a b : Int) : Int :=
  if h : b = 0 then a else gcdDur b (a.tmod b)
termination_by b.natAbs
decreasing_by exact natAbsTmodLt a b h

/-- `func (cl *cleaner) calculateIntervalGCD()`. -/
def calculateIntervalGCD (cl : CleanerState) : CleanerState :=
  match cl.cachers with
  | [] => { cl with cleanInterval := 0 }
  | c0 :: rest => { cl with cleanInterval := rest.foldl (fun i c => gcdDur i c) c0 }

/-- `func (cl *cleaner) Register(c cleanable)`: append, then recompute. -/
def registerCleanable (cl : CleanerState) (c : Int) : CleanerState :=
  calculateIntervalGCD { cl with cachers := cl.cachers ++ [c] }

/-- A whole sequence of `Register` calls. -/
def registerAll (cl : CleanerState) (l : List Int) : CleanerState :=
  l.foldl registerCleanable cl

/-! ### Key formatting (`PolyKeyer`) -/

/-- `type PolyKeyer struct { primaryKey string; extraKeys int; sep rune }`. -/
structure PolyKeyer where
  primaryKey : String
  extraKeys  : Nat
  sep        : Char
deriving DecidableEq, Repr

/-- `func NewPolyKeyer(primaryKey string, numExtraKeys int) *PolyKeyer`
(the separator is the constant `keySep = '.'`). -/
def NewPolyKeyer (primaryKey : String) (numExtraKeys : Nat) : PolyKeyer :=
  { primaryKey := primaryKey, extraKeys := numExtraKeys, sep := '.' }

/-- `func (k *PolyKeyer) New(extraKeys ...string) string`: `none` models the
`panic` branch; otherwise the builder writes the primary key and then, for
each extra key, the separator rune followed by the key. -/
def PolyKeyer.new (k : PolyKeyer) (extraKeys : List String) : Option String :=
  if extraKeys.length = 0 ∨ extraKeys.length ≠ k.extraKeys then none
  else some (extraKeys.foldl (fun b s => b ++ k.sep.toString ++ s) k.primaryKey)

/-! ## Claims -/

/-- Claim C1: for every default-policy evictable state, `isExpired` returns
false without mutation when `expiry = 0`; returns true without mutation when
`expiry ≤ now`; and otherwise returns false, mutating `expiry` to `now + ttl`
exactly when the check is live (`dry = false`) and revaluation is enabled —
in particular a dry check never alters the state. -/
theorem isExpired_follows_default_policy (d : DefaultEviction) (dry : Bool) (now : Int) :
    (d.expiry = 0 → isExpired d dry now = (false, d)) ∧
    (d.expiry ≠ 0 → d.expiry ≤ now → isExpired d dry now = (true, d)) ∧
    (d.expiry ≠ 0 → now < d.expiry →
      isExpired d dry now =
        (false, if dry = false ∧ d.revaluate = true
                then { d with expiry := now + d.ttl } else d)) := by
  refine ⟨fun h0 => ?_, fun h0 hle => ?_, fun h0 hlt => ?_⟩
  · simp [isExpired, h0]
  · simp [isExpired, h0, hle]
  · have hnle : ¬ d.expiry ≤ now := not_le.mpr hlt
    cases dry with
    | true => simp [isExpired, h0, hnle]
    | false =>
      cases hr : d.revaluate with
      | true => simp [isExpired, h0, hnle, hr]
      | false => simp [isExpired, h0, hnle, hr]

/-- Witness for C1, on a state within its TTL: the dry check leaves expiry
100 in place while the live check (revaluation on) renews it to 30 + 50. -/
theorem isExpired_follows_default_policy_witness :
    isExpired ⟨100, true, 50⟩ true 30 = (false, ⟨100, true, 50⟩) ∧
    isExpired ⟨100, true, 50⟩ false 30 = (false, ⟨80, true, 50⟩) := by
  constructor
  · have h := (isExpired_follows_default_policy ⟨100, true, 50⟩ true 30).2.2
      (by decide) (by decide)
    rw [h]; decide
  · have h := (isExpired_follows_default_policy ⟨100, true, 50⟩ false 30).2.2
      (by decide) (by decide)
    rw [h]; decide

/-- Claim C10: a `PolyKeyer` with arity 0 can never produce a key — every
call to `New` hits the panic branch, even with exactly zero extra keys,
because the emptiness check precedes the arity-equality check. -/
theorem polyKeyer_zero_arity_never_returns (p : String) (parts : List String) :
    (NewPolyKeyer p 0).new parts = none := by
  cases parts with
  | nil => simp [PolyKeyer.new, NewPolyKeyer]
  | cons s rest => simp [PolyKeyer.new, NewPolyKeyer]

/-- Claim C9 fails at arity 0: `New` called with exactly zero extra keys
(the configured arity) panics instead of returning the primary key. -/
theorem polyKeyer_exact_arity_cex :
    (NewPolyKeyer "chat" 0).new [] = none ∧
    (NewPolyKeyer "chat" 0).new [] ≠ some "chat" := by
  decide

/-- The builder loop of `PolyKeyer.New`, rephrased: folding the separator
writes from the left equals appending each separator-prefixed part. -/
theorem foldlSepAppend (sep : Char) :
    ∀ (parts : List String) (acc : String),
      parts.foldl (fun b s => b ++ sep.toString ++ s) acc
        = acc ++ parts.foldr (fun s r => sep.toString ++ s ++ r) "" := by
  intro parts
  induction parts with
  | nil => intro acc; simp
  | cons s rest ih =>
    intro acc
    simp only [List.foldl_cons, List.foldr_cons]
    rw [ih, String.append_assoc, String.append_assoc, String.append_assoc]

/-- Claim C9 (amended): for every `PolyKeyer` with primary key `p` and arity
`N ≥ 1`, `New` with exactly `N` parts returns `p` followed by each part
prefixed by the `.` separator, while `New` with a count different from `N`
(and, because the emptiness check comes first, every call when `N = 0`)
aborts fatally rather than returning a value. -/
theorem polyKeyer_new_spec (p : String) (n : Nat) (parts : List String) :
    (1 ≤ n → parts.length = n →
      (NewPolyKeyer p n).new parts
        = some (p ++ parts.foldr (fun s r => "." ++ s ++ r) "")) ∧
    (parts.length ≠ n → (NewPolyKeyer p n).new parts = none) := by
  constructor
  · intro hn hlen
    have hne : ¬ (parts.length = 0 ∨ parts.length ≠ n) := by omega
    simp only [PolyKeyer.new, NewPolyKeyer, if_neg hne]
    rw [foldlSepAppend]
    simp only [show ('.' : Char).toString = "." from rfl]
  · intro hne
    simp [PolyKeyer.new, NewPolyKeyer, hne]

/-- Witness for the amended C9: primary `chat` with 2 secondary parts,
called with `public` and `100291`, yields exactly `chat.public.100291`;
one part too few panics. -/
theorem polyKeyer_new_spec_witness :
    (NewPolyKeyer "chat" 2).new ["public", "100291"] = some "chat.public.100291" ∧
    (NewPolyKeyer "chat" 2).new ["public"] = none := by
  constructor
  · have h := (polyKeyer_new_spec "chat" 2 ["public", "100291"]).1
      (by decide) (by decide)
    rw [h]; decide
  · exact (polyKeyer_new_spec "chat" 2 ["public"]).2 (by decide)

/-- Writing a key back to the slot it already occupies leaves the map
unchanged (Go pointer update with the identical pointer). -/
theorem mapSetSelf [DecidableEq K] :
    ∀ (m : List (K × B)) (k : K) (v : B), mapGet m k = some v → mapSet m k v = m := by
  intro m
  induction m with
  | nil => intro k v h; simp [mapGet] at h
  | cons kv rest ih =>
    intro k v h
    obtain ⟨k', v'⟩ := kv
    by_cases hk : k = k'
    · subst hk
      have h' : v' = v := by simpa [mapGet] using h
      subst h'
      simp [mapSet]
    · simp only [mapGet, if_neg hk] at h
      simp [mapSet, hk, ih _ _ h]

/-- Claim C4: entries stored via `SetPermanent` have `expiry = 0`, and `Get`
on an entry whose evictable state has `expiry = 0` returns the stored value
with `true` and leaves the instance entirely unchanged — never reported
expired, never removed, for every elapsed time `now`. -/
theorem permanent_entries_never_expire [DecidableEq K] [Inhabited V]
    (c : Cacher K V) (k : K) (v : Value V) (now : Int) :
    (∀ (w : V) (n0 : Int), (packValue c w none true n0).ev.expiry = 0) ∧
    (mapGet c.cacheMap k = some v → v.ev.expiry = 0 →
      c.get k now = ((v.val, true), c)) := by
  constructor
  · intro w n0
    by_cases h : c.ttl = 0 <;> simp [packValue, h]
  · intro hget h0
    have hexp : isExpired v.ev false now = (false, v.ev) := by
      simp [isExpired, h0]
    obtain ⟨val, ev⟩ := v
    simp only [Cacher.get, hget, Value.get, hexp]
    simp only [Bool.false_eq_true, if_false, if_true, reduceIte]
    rw [mapSetSelf c.cacheMap k ⟨val, ev⟩ hget]

/-- Witness for C4: a permanent entry (expiry 0) is returned intact by `Get`
far in the future, and `SetPermanent` packs expiry 0. -/
theorem permanent_entries_never_expire_witness :
    (packValue (⟨Status.noop, [], 0, CleaningMode.CleaningNone, 10, false⟩ : Cacher Nat Nat)
        7 none true 100).ev.expiry = 0 ∧
    (⟨Status.noop, [(1, ⟨7, ⟨0, false, 10⟩⟩)], 0, CleaningMode.CleaningNone, 10, false⟩ :
        Cacher Nat Nat).get 1 1000000
      = ((7, true),
         ⟨Status.noop, [(1, ⟨7, ⟨0, false, 10⟩⟩)], 0, CleaningMode.CleaningNone, 10, false⟩) := by
  constructor
  · exact (permanent_entries_never_expire
      (⟨Status.noop, [], 0, CleaningMode.CleaningNone, 10, false⟩ : Cacher Nat Nat)
      1 ⟨7, ⟨0, false, 10⟩⟩ 0).1 7 100
  · exact (permanent_entries_never_expire
      (⟨Status.noop, [(1, ⟨7, ⟨0, false, 10⟩⟩)], 0, CleaningMode.CleaningNone, 10, false⟩ :
        Cacher Nat Nat)
      1 ⟨7, ⟨0, false, 10⟩⟩ 1000000).2 (by decide) (by decide)

/-- Claim C2: `Get` returns the zero value with `false` and leaves the
instance intact when the key is absent; when present it performs a live
(non-dry) staleness check, and if that check reports expired it deletes the
entry and returns the zero value with `false`, otherwise it returns the
stored value with `true` (the entry possibly renewed in place).  A miss or
expired lookup is only ever a boolean not-found result. -/
theorem get_miss_is_boolean_not_found [DecidableEq K] [Inhabited V]
    (c : Cacher K V) (k : K) (now : Int) :
    (mapGet c.cacheMap k = none → c.get k now = ((default, false), c)) ∧
    (∀ v, mapGet c.cacheMap k = some v →
      ((isExpired v.ev false now).1 = true →
        c.get k now = ((default, false), { c with cacheMap := mapErase c.cacheMap k })) ∧
      ((isExpired v.ev false now).1 = false →
        c.get k now = ((v.val, true),
          { c with cacheMap :=
              mapSet c.cacheMap k { v with ev := (isExpired v.ev false now).2 } }))) := by
  constructor
  · intro h
    simp [Cacher.get, h]
  · intro v hv
    constructor
    · intro hexp
      simp [Cacher.get, hv, Value.get, hexp]
    · intro hlive
      simp [Cacher.get, hv, Value.get, hlive]

/-- Witness for C2: a lookup of an absent key, an expired key (deleted), and
a live key (returned with `true`) on concrete instances. -/
theorem get_miss_is_boolean_not_found_witness :
    (⟨Status.noop, [(1, ⟨5, ⟨100, false, 10⟩⟩)], 0, CleaningMode.CleaningNone, 10, false⟩ :
        Cacher Nat Nat).get 2 50
      = ((0, false),
         ⟨Status.noop, [(1, ⟨5, ⟨100, false, 10⟩⟩)], 0, CleaningMode.CleaningNone, 10, false⟩) ∧
    (⟨Status.noop, [(1, ⟨5, ⟨100, false, 10⟩⟩)], 0, CleaningMode.CleaningNone, 10, false⟩ :
        Cacher Nat Nat).get 1 200
      = ((0, false), ⟨Status.noop, [], 0, CleaningMode.CleaningNone, 10, false⟩) ∧
    (⟨Status.noop, [(1, ⟨5, ⟨100, false, 10⟩⟩)], 0, CleaningMode.CleaningNone, 10, false⟩ :
        Cacher Nat Nat).get 1 50
      = ((5, true),
         ⟨Status.noop, [(1, ⟨5, ⟨100, false, 10⟩⟩)], 0, CleaningMode.CleaningNone, 10, false⟩) := by
  refine ⟨?_, ?_, ?_⟩
  · have h := (get_miss_is_boolean_not_found
      (⟨Status.noop, [(1, ⟨5, ⟨100, false, 10⟩⟩)], 0, CleaningMode.CleaningNone, 10, false⟩ :
        Cacher Nat Nat) 2 50).1 (by decide)
    rw [h]; decide
  · have h := ((get_miss_is_boolean_not_found
      (⟨Status.noop, [(1, ⟨5, ⟨100, false, 10⟩⟩)], 0, CleaningMode.CleaningNone, 10, false⟩ :
        Cacher Nat Nat) 1 200).2 ⟨5, ⟨100, false, 10⟩⟩ (by decide)).1 (by decide)
    rw [h]; decide
  · have h := ((get_miss_is_boolean_not_found
      (⟨Status.noop, [(1, ⟨5, ⟨100, false, 10⟩⟩)], 0, CleaningMode.CleaningNone, 10, false⟩ :
        Cacher Nat Nat) 1 50).2 ⟨5, ⟨100, false, 10⟩⟩ (by decide)).2 (by decide)
    rw [h]; decide

/-- Claim C5: `GetAll` collects `getWithoutExpiry` of every entry currently
in the map — a raw snapshot: its length equals the entry count and every
stored value appears, with no liveness filtering (expired-but-unswept
entries included) and, the source performing no writes under its read lock,
no removal and no revaluation. -/
theorem getAll_returns_raw_snapshot (c : Cacher K V) :
    (c.getAll.length : Int) = c.numKeys ∧
    (∀ kv ∈ c.cacheMap, kv.2.val ∈ c.getAll) := by
  constructor
  · simp [Cacher.getAll, Cacher.numKeys]
  · intro kv hkv
    simp only [Cacher.getAll, Value.getWithoutExpiry, List.mem_map]
    exact ⟨kv, hkv, rfl⟩

/-- Witness for C5: a map with one live and one already-expired entry at
`now = 50`; both values are returned and the length is the entry count. -/
theorem getAll_returns_raw_snapshot_witness :
    (isExpired ⟨5, false, 10⟩ true 50).1 = true ∧
    ((⟨Status.noop, [(1, ⟨7, ⟨5, false, 10⟩⟩), (2, ⟨8, ⟨0, false, 10⟩⟩)], 0,
        CleaningMode.CleaningNone, 10, false⟩ : Cacher Nat Nat).getAll.length : Int)
      = (⟨Status.noop, [(1, ⟨7, ⟨5, false, 10⟩⟩), (2, ⟨8, ⟨0, false, 10⟩⟩)], 0,
        CleaningMode.CleaningNone, 10, false⟩ : Cacher Nat Nat).numKeys ∧
    (7 : Nat) ∈ (⟨Status.noop, [(1, ⟨7, ⟨5, false, 10⟩⟩), (2, ⟨8, ⟨0, false, 10⟩⟩)], 0,
        CleaningMode.CleaningNone, 10, false⟩ : Cacher Nat Nat).getAll := by
  refine ⟨by decide, ?_, ?_⟩
  · exact (getAll_returns_raw_snapshot
      (⟨Status.noop, [(1, ⟨7, ⟨5, false, 10⟩⟩), (2, ⟨8, ⟨0, false, 10⟩⟩)], 0,
        CleaningMode.CleaningNone, 10, false⟩ : Cacher Nat Nat)).1
  · have h := (getAll_returns_raw_snapshot
      (⟨Status.noop, [(1, ⟨7, ⟨5, false, 10⟩⟩), (2, ⟨8, ⟨0, false, 10⟩⟩)], 0,
        CleaningMode.CleaningNone, 10, false⟩ : Cacher Nat Nat)).2
      (1, ⟨7, ⟨5, false, 10⟩⟩) (by decide)
    simpa using h

/-- Claim C3 is false on the code: with a nonzero instance TTL (here 10s,
`now = 100`), `SetWithTTL(k, v, 0)` stores a permanent entry
(`expiry = 0`) while `Set(k, v)` stores `expiry = 110`, so the two
evictable states differ. -/
theorem setWithTTL_zero_cex :
    mapGet ((⟨Status.noop, [], 0, CleaningMode.CleaningNone, 10, false⟩ :
        Cacher Nat Nat).setWithTTL 1 7 0 100).cacheMap 1
      = some ⟨7, ⟨0, false, 10⟩⟩ ∧
    mapGet ((⟨Status.noop, [], 0, CleaningMode.CleaningNone, 10, false⟩ :
        Cacher Nat Nat).set 1 7 100).cacheMap 1
      = some ⟨7, ⟨110, false, 10⟩⟩ ∧
    mapGet ((⟨Status.noop, [], 0, CleaningMode.CleaningNone, 10, false⟩ :
        Cacher Nat Nat).setWithTTL 1 7 0 100).cacheMap 1
      ≠ mapGet ((⟨Status.noop, [], 0, CleaningMode.CleaningNone, 10, false⟩ :
        Cacher Nat Nat).set 1 7 100).cacheMap 1 := by
  decide

/-- Claim C3 (amended): `SetWithTTL(k, v, 0)` skips both the TTL-override
branch and the default-TTL branch of `packValue`, leaving `expiry = 0`: it
stores exactly the entry `SetPermanent(k, v)` would store, and therefore
matches `Set(k, v)` only when the instance's default TTL is itself 0. -/
theorem setWithTTL_zero_is_permanent [DecidableEq K] (c : Cacher K V) (k : K) (v : V)
    (now : Int) :
    c.setWithTTL k v 0 now = c.setPermanent k v now ∧
    (c.ttl = 0 → c.setWithTTL k v 0 now = c.set k v now) := by
  constructor
  · by_cases h : c.ttl = 0 <;>
      simp [Cacher.setWithTTL, Cacher.setPermanent, packValue, h]
  · intro h
    simp [Cacher.setWithTTL, Cacher.set, packValue, h]

/-- Witness for the amended C3: on an instance with default TTL 0,
`SetWithTTL(k, v, 0)` agrees with both `SetPermanent` and `Set`. -/
theorem setWithTTL_zero_is_permanent_witness :
    (⟨Status.noop, [], 0, CleaningMode.CleaningNone, 0, false⟩ :
        Cacher Nat Nat).setWithTTL 1 7 0 100
      = (⟨Status.noop, [], 0, CleaningMode.CleaningNone, 0, false⟩ :
        Cacher Nat Nat).setPermanent 1 7 100 ∧
    (⟨Status.noop, [], 0, CleaningMode.CleaningNone, 0, false⟩ :
        Cacher Nat Nat).setWithTTL 1 7 0 100
      = (⟨Status.noop, [], 0, CleaningMode.CleaningNone, 0, false⟩ :
        Cacher Nat Nat).set 1 7 100 := by
  constructor
  · exact (setWithTTL_zero_is_permanent
      (⟨Status.noop, [], 0, CleaningMode.CleaningNone, 0, false⟩ : Cacher Nat Nat)
      1 7 100).1
  · exact (setWithTTL_zero_is_permanent
      (⟨Status.noop, [], 0, CleaningMode.CleaningNone, 0, false⟩ : Cacher Nat Nat)
      1 7 100).2 rfl

/-- If the status read at the current sweep iteration is `cacherReset` or
`cacherDeleted`, the loop abandons the pass: every remaining entry is left
in place and the status is set to `noop`. -/
theorem cleanLoopFrozen (now : Int) (stats : Nat → Status) (i : Nat)
    (l : List (K × Value V)) (hl : l ≠ [])
    (hs : stats i = Status.cacherReset ∨ stats i = Status.cacherDeleted) :
    cleanLoop now stats i l = (l, Status.noop) := by
  cases l with
  | nil => exact absurd rfl hl
  | cons kv rest => simp [cleanLoop, hs]

/-- Claim C8: during a sweep, once the observed instance status is Reset or
Deleted, the sweep removes no further entry: the remainder of the pass is
abandoned with all remaining entries in place, the status is set back to
Idle (`noop`), and in particular a whole `cleanExpired` pass started under
such a status leaves the map untouched. -/
theorem sweep_aborts_after_reset (now : Int) (stats : Nat → Status) (i : Nat)
    (l : List (K × Value V)) (c : Cacher K V) :
    (l ≠ [] → (stats i = Status.cacherReset ∨ stats i = Status.cacherDeleted) →
      cleanLoop now stats i l = (l, Status.noop)) ∧
    (c.cacheMap ≠ [] → (stats 0 = Status.cacherReset ∨ stats 0 = Status.cacherDeleted) →
      c.cleanExpired now stats = { c with status := Status.noop }) := by
  constructor
  · exact fun hl hs => cleanLoopFrozen now stats i l hl hs
  · intro hm hs
    simp [Cacher.cleanExpired, cleanLoopFrozen now stats 0 c.cacheMap hm hs]

/-- Witness for C8: a sweep over a one-entry map whose every status read is
`cacherReset` keeps the (even expired) entry and ends with status `noop`. -/
theorem sweep_aborts_after_reset_witness :
    cleanLoop 50 (fun _ => Status.cacherReset) 0 [(1, (⟨7, ⟨5, false, 10⟩⟩ : Value Nat))]
      = ([(1, ⟨7, ⟨5, false, 10⟩⟩)], Status.noop) ∧
    (⟨Status.cacherReset, [(1, ⟨7, ⟨5, false, 10⟩⟩)], 0, CleaningMode.CleaningNone, 10,
        false⟩ : Cacher Nat Nat).cleanExpired 50 (fun _ => Status.cacherReset)
      = ⟨Status.noop, [(1, ⟨7, ⟨5, false, 10⟩⟩)], 0, CleaningMode.CleaningNone, 10,
         false⟩ := by
  constructor
  · exact (sweep_aborts_after_reset 50 (fun _ => Status.cacherReset) 0
      [(1, (⟨7, ⟨5, false, 10⟩⟩ : Value Nat))]
      (⟨Status.cacherReset, [], 0, CleaningMode.CleaningNone, 10, false⟩ : Cacher Nat Nat)).1
      (by decide) (Or.inl rfl)
  · have h := (sweep_aborts_after_reset 50 (fun _ => Status.cacherReset) 0
      ([] : List (Nat × Value Nat))
      (⟨Status.cacherReset, [(1, ⟨7, ⟨5, false, 10⟩⟩)], 0, CleaningMode.CleaningNone, 10,
        false⟩ : Cacher Nat Nat)).2 (by decide) (Or.inl rfl)
    rw [h]

/-- `gcdDur` at a zero second operand returns the first operand. -/
theorem gcdDurZero (a : Int) : gcdDur a 0 = a := by
  simp [gcdDur]

/-- On natural inputs the Euclid loop of the cleaner computes `Nat.gcd`. -/
theorem gcdDurNat (n : Nat) : ∀ (m : Nat),
    gcdDur (Int.ofNat m) (Int.ofNat n) = Int.ofNat (Nat.gcd m n) := by
  induction n using Nat.strong_induction_on with
  | _ n ih =>
    intro m
    by_cases h : n = 0
    · subst h
      simp [gcdDur]
    · have hne : (Int.ofNat n) ≠ 0 := by
        simpa [Int.ofNat_eq_zero] using h
      rw [gcdDur, dif_neg hne]
      have htm : (Int.ofNat m).tmod (Int.ofNat n) = Int.ofNat (m % n) := rfl
      rw [htm, ih (m % n) (Nat.mod_lt m (Nat.pos_of_ne_zero h))]
      rw [Nat.gcd_comm n (m % n), ← Nat.gcd_rec n m, Nat.gcd_comm n m]

/-- Folding the cleaner's `gcd` from the left over natural intervals is the
`Nat.gcd` fold. -/
theorem foldlGcdNat : ∀ (rest : List Nat) (x : Nat),
    (rest.map Int.ofNat).foldl (fun i c => gcdDur i c) (Int.ofNat x)
      = Int.ofNat (rest.foldl Nat.gcd x) := by
  intro rest
  induction rest with
  | nil => intro x; rfl
  | cons y r ih =>
    intro x
    simp only [List.map_cons, List.foldl_cons]
    rw [gcdDurNat y x]
    exact ih (Nat.gcd x y)

/-- Folding `Nat.gcd` from the left starting at the head equals the `gcd`
of the whole list (its canonical `foldr` with identity 0). -/
theorem foldlGcdEqFoldr : ∀ (rest : List Nat) (x : Nat),
    rest.foldl Nat.gcd x = Nat.gcd x (rest.foldr Nat.gcd 0) := by
  intro rest
  induction rest with
  | nil => intro x; simp
  | cons y r ih =>
    intro x
    simp only [List.foldl_cons, List.foldr_cons]
    rw [ih (Nat.gcd x y), Nat.gcd_assoc]

/-- `calculateIntervalGCD` never touches the registrant list. -/
theorem calculateIntervalGCDCachers (cl : CleanerState) :
    (calculateIntervalGCD cl).cachers = cl.cachers := by
  rcases hcl : cl.cachers with _ | ⟨c0, rest⟩ <;> simp [calculateIntervalGCD, hcl]

/-- The interval recomputed by `calculateIntervalGCD` depends only on the
registrant list. -/
def intervalOf : List Int → Int
  | [] => 0
  | x :: rest => rest.foldl (fun i c => gcdDur i c) x

/-- `calculateIntervalGCD` stores `intervalOf` of its registrant list. -/
theorem calculateIntervalGCDInterval (cl : CleanerState) :
    (calculateIntervalGCD cl).cleanInterval = intervalOf cl.cachers := by
  rcases hcl : cl.cachers with _ | ⟨c0, rest⟩ <;>
    simp [calculateIntervalGCD, intervalOf, hcl]

/-- A sequence of `Register` calls appends the registrants in order. -/
theorem registerAllCachers : ∀ (l : List Int) (cl : CleanerState),
    (registerAll cl l).cachers = cl.cachers ++ l := by
  intro l
  induction l with
  | nil => intro cl; simp [registerAll]
  | cons x r ih =>
    intro cl
    show (registerAll (registerCleanable cl x) r).cachers = _
    rw [ih, registerCleanable, calculateIntervalGCDCachers]
    simp

/-- After at least one registration, the shared interval is `intervalOf`
the accumulated registrant list. -/
theorem registerAllInterval : ∀ (l : List Int) (cl : CleanerState), l ≠ [] →
    (registerAll cl l).cleanInterval = intervalOf (cl.cachers ++ l) := by
  intro l
  induction l with
  | nil => intro cl h; exact absurd rfl h
  | cons x r ih =>
    intro cl _
    show (registerAll (registerCleanable cl x) r).cleanInterval = _
    rcases hr : r with _ | ⟨y, r'⟩
    · show (registerCleanable cl x).cleanInterval = _
      rw [registerCleanable, calculateIntervalGCDInterval]
    · rw [← hr, ih (registerCleanable cl x) (by rw [hr]; simp),
        registerCleanable, calculateIntervalGCDCachers]
      simp

/-- Claim C6: after every sequence of `Register` calls on the central
cleaner, the shared tick interval equals the greatest common divisor of all
registrants' clean intervals (0 with zero registrants): it equals the
`Nat.gcd` fold of the intervals, which divides every registered interval
and is divided by every common divisor. -/
theorem central_cleaner_interval_is_gcd (l : List Nat) :
    (registerAll newCleaner (l.map Int.ofNat)).cleanInterval
      = Int.ofNat (l.foldr Nat.gcd 0) ∧
    (∀ x ∈ l, l.foldr Nat.gcd 0 ∣ x) ∧
    (∀ d : Nat, (∀ x ∈ l, d ∣ x) → d ∣ l.foldr Nat.gcd 0) := by
  refine ⟨?_, ?_, ?_⟩
  · cases l with
    | nil => rfl
    | cons x r =>
      rw [registerAllInterval _ newCleaner (by simp)]
      show intervalOf (List.map Int.ofNat (x :: r)) = _
      simp only [List.map_cons, intervalOf]
      rw [foldlGcdNat r x, foldlGcdEqFoldr r x, List.foldr_cons]
  · induction l with
    | nil => intro x hx; simp at hx
    | cons y r ih =>
      intro x hx
      rcases List.mem_cons.mp hx with h | h
      · subst h
        exact Nat.gcd_dvd_left _ _
      · exact dvd_trans (Nat.gcd_dvd_right _ _) (ih x h)
  · induction l with
    | nil => intro d _; exact Dvd.intro 0 rfl
    | cons y r ih =>
      intro d hd
      exact Nat.dvd_gcd (hd y (List.mem_cons_self y r))
        (ih d (fun x hx => hd x (List.mem_cons_of_mem y hx)))

/-- Witness for C6: intervals of 6 and 4 yield a shared interval of 2, an
interval of 5 alone yields 5, and zero registrants yield 0 (idle). -/
theorem central_cleaner_interval_is_gcd_witness :
    (registerAll newCleaner [6, 4]).cleanInterval = 2 ∧
    (registerAll newCleaner [5]).cleanInterval = 5 ∧
    (registerAll newCleaner []).cleanInterval = 0 := by
  refine ⟨?_, ?_, ?_⟩
  · have h := (central_cleaner_interval_is_gcd [6, 4]).1
    simpa using h
  · have h := (central_cleaner_interval_is_gcd [5]).1
    simpa using h
  · have h := (central_cleaner_interval_is_gcd []).1
    simpa using h

/-- Claim C7 states the documented default (half the TTL when finite,
otherwise a long fallback such as 24h), but the constructor of the current
variant sets the clean interval to `1 * time.Hour` whenever no explicit
interval is given, regardless of the TTL: with TTL = 10 minutes and a local
cleaner the tick period comes out as 3600s, not the documented 300s. -/
theorem newCacher_default_interval_eval :
    (newCacher Nat Nat
        (some ⟨600 * nsPerSecond, 0, CleaningMode.CleaningLocal, false⟩)).cleanInterval
      = 3600 * nsPerSecond ∧
    (600 * nsPerSecond) / 2 ≠ (3600 * nsPerSecond : Int) := by
  constructor
  · rfl
  · decide

end Cacher
